import Mathlib

/-!
Verification of the ingredient-matching and ranking algorithm of the
`suggest_recipes` endpoint (`backend/main.py`, lines 164-248).

The endpoint normalizes the caller's ingredient names (`lower().strip()`),
rejects an empty list with HTTP 400, and for each candidate recipe classifies
every (lower-cased) required-ingredient name as "have" or "need" by symmetric
substring containment against the user's ingredients.  It scores each
candidate with `int((len(have) / total) * 100)` — CPython double-precision
arithmetic, truncated — keeps candidates with a positive score, sorts by
score descending (stable sort), truncates to 10 entries and wraps them in a
response with a summary message.

The embedding below mirrors that code:
* Python's `a in b` string test is `py_str_in`;
* CPython's `int((s / t) * 100)` is `pyMatchPct`, an exact model of IEEE-754
  binary64 arithmetic (two correctly rounded operations, round to nearest,
  ties to even) followed by truncation, specialised to nonnegative operands
  of the sizes reachable here;
* Python's stable `list.sort(key=..., reverse=True)` is rendered as stable
  insertion sort by the descending-score preorder (a stable sort over a
  total preorder has a unique result);
* `suggest_recipes` is the endpoint body from the point where the candidate
  list has been fetched (the cuisine/dietary preselection happens in the
  database query before the ranking loop and is out of the ranker's scope,
  matching the specification).  Display-only pass-through fields
  (description, cuisine, difficulty, total_time, dietary_tags) are omitted
  from the records; no analysed property concerns them.
-/

namespace RecipeMatch

/-- Model of Python's substring test `needle in hay` on the character lists
of the two strings: true iff `needle` occurs contiguously in `hay`
(the empty list occurs in everything). -/
def list_in (needle : List Char) : List Char → Bool
  | [] => needle.isPrefixOf []
  | c :: rest => needle.isPrefixOf (c :: rest) || list_in needle rest

/-- Python's `needle in hay` for strings. -/
def py_str_in (needle hay : String) : Bool :=
  list_in needle.data hay.data

/-- Propositional form of the substring relation: `a` occurs contiguously
inside `b`. -/
def SubstringOf (a b : String) : Prop :=
  a.data <:+: b.data

instance (a b : String) : Decidable (SubstringOf a b) := by
  unfold SubstringOf; infer_instance

/-- Python's `str.lower()`: lower-case every character. -/
def py_lower (s : String) : String :=
  ⟨s.data.map Char.toLower⟩

/-- Python's `str.strip()`: drop leading and trailing whitespace. -/
def py_strip (s : String) : String :=
  ⟨((s.data.dropWhile Char.isWhitespace).reverse.dropWhile Char.isWhitespace).reverse⟩

/-- Normalization applied to each caller-supplied ingredient:
`ing.lower().strip()` in the source. -/
def normalize_ingredient (s : String) : String :=
  py_strip (py_lower s)

/-!  Exact model of CPython's `int((s / t) * 100)` for naturals `s ≤ t`.

CPython evaluates `s / t` and the product by IEEE-754 binary64 arithmetic:
each operation is computed exactly and then rounded to 53 significant bits,
to nearest, ties to even; `int` truncates toward zero.  For nonnegative
operands this is modelled with exact natural-number arithmetic: a positive
rational `a / b` is scaled by a power of two into `[2^52, 2^53)` using its
binary exponent and rounded to an integer mantissa. -/

/-- Round the rational `a / b` (with `b > 0`) to the nearest integer,
ties to even. -/
def rneDiv (a b : Nat) : Nat :=
  let q := a / b
  let r := a % b
  if 2 * r < b then q
  else if b < 2 * r then q + 1
  else if q % 2 = 0 then q else q + 1

/-- Fuel-bounded count of doublings of `b` that stay below `a`: for
`0 < b ≤ a` and sufficient fuel this is `⌊log₂ (a / b)⌋`. -/
def lg2up : Nat → Nat → Nat → Nat
  | 0, _, _ => 0
  | fuel + 1, a, b => if 2 * b ≤ a then lg2up fuel a (2 * b) + 1 else 0

/-- Fuel-bounded count of doublings of `a` needed to reach `b`: for
`0 < a < b` and sufficient fuel this is `-⌊log₂ (a / b)⌋`. -/
def lg2dn : Nat → Nat → Nat → Nat
  | 0, _, _ => 0
  | fuel + 1, a, b => if a < b then lg2dn fuel (2 * a) b + 1 else 0

/-- Binary exponent `⌊log₂ (a / b)⌋` of the positive rational `a / b`
(correct whenever the exponent magnitude is below the fuel `1100`, far
beyond anything reachable from the endpoint). -/
def flog2 (a b : Nat) : Int :=
  if a < b then -(lg2dn 1100 a b : Int) else (lg2up 1100 a b : Int)

/-- Binary64 rounding of the positive rational `a / b`: returns the mantissa
`m` and exponent `e` of the rounded value `m * 2 ^ (e - 52)`. -/
def flPair (a b : Nat) : Nat × Int :=
  let e := flog2 a b
  let m := if e ≤ 52 then rneDiv (a * 2 ^ (52 - e).toNat) b
           else rneDiv a (b * 2 ^ (e - 52).toNat)
  (m, e)

/-- CPython's `int((s / t) * 100)` for naturals: binary64 division, binary64
multiplication by 100, truncation toward zero. -/
def pyMatchPct (s t : Nat) : Nat :=
  if s = 0 then 0
  else
    let p := flPair s t
    let q := flPair (p.1 * 100) (2 ^ (52 - p.2).toNat)
    if q.2 ≤ 52 then q.1 / 2 ^ (52 - q.2).toNat
    else q.1 * 2 ^ (q.2 - 52).toNat

deriving instance DecidableEq for Except

/-- A candidate recipe as seen by the ranking loop: its identifier, display
name and the names of its required ingredients (original casing, as stored). -/
structure Recipe where
  id : Nat
  name : String
  ingredients : List String
deriving DecidableEq

/-- One entry of the endpoint's response (`RecipeSuggestion` in
`backend/schemas.py`, restricted to the analysed fields). -/
structure RecipeSuggestion where
  id : Nat
  name : String
  ingredients_have : List String
  ingredients_need : List String
  match_percentage : Nat
deriving DecidableEq

/-- The endpoint's response (`RecipeSuggestionsResponse`). -/
structure RecipeSuggestionsResponse where
  suggestions : List RecipeSuggestion
  message : String
  total_recipes_searched : Nat
deriving DecidableEq

/-- The lower-cased required-ingredient names of a recipe
(`[ing.name.lower() for ing in recipe.ingredients]`). -/
def recipe_ingredient_names (r : Recipe) : List String :=
  r.ingredients.map py_lower

/-- The per-ingredient satisfaction test: a required name is satisfied if
some user ingredient contains it or is contained in it
(`any(user_ing in recipe_ing or recipe_ing in user_ing for ...)`). -/
def has_ingredient (user_ingredients : List String) (recipe_ing : String) : Bool :=
  user_ingredients.any fun user_ing =>
    py_str_in user_ing recipe_ing || py_str_in recipe_ing user_ing

/-- One iteration of the ranking loop: classify the candidate's required
ingredients and score the candidate. -/
def score_recipe (user_ingredients : List String) (r : Recipe) : RecipeSuggestion :=
  let names := recipe_ingredient_names r
  let haveL := names.filter (has_ingredient user_ingredients)
  let needL := names.filter fun n => ! has_ingredient user_ingredients n
  let total := names.length
  let pct := if 0 < total then pyMatchPct haveL.length total else 0
  ⟨r.id, r.name, haveL, needL, pct⟩

/-- The list built by the ranking loop before sorting: one suggestion per
candidate whose score passed `match_pct > 0 or len(user_ingredients) == 0`. -/
def filtered_suggestions (user_ingredients : List String)
    (recipes : List Recipe) : List RecipeSuggestion :=
  (recipes.map (score_recipe user_ingredients)).filter fun s =>
    decide (0 < s.match_percentage) || decide (user_ingredients.length = 0)

/-- The sort order of `suggestions.sort(key=..., reverse=True)`: scores
descending. -/
def pct_ge (a b : RecipeSuggestion) : Prop :=
  b.match_percentage ≤ a.match_percentage

instance : DecidableRel pct_ge := fun a b =>
  Nat.decLe b.match_percentage a.match_percentage

instance : IsTotal RecipeSuggestion pct_ge :=
  ⟨fun a b => Nat.le_total b.match_percentage a.match_percentage⟩

instance : IsTrans RecipeSuggestion pct_ge :=
  ⟨fun _ _ _ hab hbc => le_trans hbc hab⟩

/-- The descending stable sort on scores followed by truncation to 10
entries.  CPython's `list.sort` with `reverse=True` is a stable sort by the
descending-score preorder; a stable sort over a total preorder has a unique
result, so stable insertion sort computes exactly it. -/
def rank_suggestions (user_ingredients : List String)
    (recipes : List Recipe) : List RecipeSuggestion :=
  ((filtered_suggestions user_ingredients recipes).insertionSort pct_ge).take 10

/-- The endpoint body from the point where the candidate list has been
fetched: normalize, validate (HTTP 400 on an empty list), rank, respond. -/
def suggest_recipes (ingredients : List String) (recipes : List Recipe) :
    Except Nat RecipeSuggestionsResponse :=
  let user_ingredients := ingredients.map normalize_ingredient
  if user_ingredients.isEmpty then
    .error 400
  else
    let final := rank_suggestions user_ingredients recipes
    .ok ⟨final,
      "Found " ++ toString final.length ++ " recipes matching your " ++
        toString user_ingredients.length ++ " ingredients!",
      recipes.length⟩

/-- The request-validation boundary in front of the handler.
`IngredientInput.ingredients` (`backend/schemas.py`, line 105) is a required
pydantic field with no default, and `backend/main.py` installs no custom
validation-error handler, so FastAPI rejects a request body that is missing
the field with HTTP 422 before the handler body ever runs; a body carrying
the field reaches `suggest_recipes`. -/
def api_suggest_recipes (body : Option (List String)) (recipes : List Recipe) :
    Except Nat RecipeSuggestionsResponse :=
  match body with
  | none => .error 422
  | some ingredients => suggest_recipes ingredients recipes

/-!  Basic characterizations of the embedded operations. -/

theorem list_in_iff (needle hay : List Char) :
    list_in needle hay = true ↔ needle <:+: hay := by
  induction hay with
  | nil => simp [list_in]
  | cons c rest ih =>
      simp [list_in, ih, List.infix_cons_iff]

theorem py_str_in_iff (needle hay : String) :
    py_str_in needle hay = true ↔ SubstringOf needle hay := by
  simp [py_str_in, SubstringOf, list_in_iff]

theorem has_ingredient_iff (user_ingredients : List String) (recipe_ing : String) :
    has_ingredient user_ingredients recipe_ing = true ↔
      ∃ u ∈ user_ingredients, SubstringOf u recipe_ing ∨ SubstringOf recipe_ing u := by
  simp [has_ingredient, py_str_in_iff]

@[simp] theorem flPair_fst (a b : Nat) :
    (flPair a b).1 =
      if flog2 a b ≤ 52 then rneDiv (a * 2 ^ ((52 : Int) - flog2 a b).toNat) b
      else rneDiv a (b * 2 ^ (flog2 a b - 52).toNat) := rfl

@[simp] theorem flPair_snd (a b : Nat) : (flPair a b).2 = flog2 a b := rfl

theorem rneDiv_le (a b : Nat) : rneDiv a b ≤ a / b + 1 := by
  simp only [rneDiv]
  split
  · exact Nat.le_succ _
  · split
    · exact Nat.le_refl _
    · split
      · exact Nat.le_succ _
      · exact Nat.le_refl _

theorem lg2up_eq_zero (fuel a b : Nat) (h : a < 2 * b) : lg2up fuel a b = 0 := by
  cases fuel with
  | zero => rfl
  | succ n => simp [lg2up, Nat.not_le.2 h]

theorem lg2up_pow_le (fuel : Nat) :
    ∀ a b : Nat, 0 < b → b ≤ a → 2 ^ lg2up fuel a b * b ≤ a := by
  induction fuel with
  | zero => intro a b _ hba; simpa [lg2up] using hba
  | succ n ih =>
      intro a b hb hba
      by_cases h : 2 * b ≤ a
      · have := ih a (2 * b) (by omega) h
        simp only [lg2up, if_pos h, pow_succ]
        calc 2 ^ lg2up n a (2 * b) * 2 * b
            = 2 ^ lg2up n a (2 * b) * (2 * b) := by ring
          _ ≤ a := this
      · simpa [lg2up, h] using hba

theorem flog2_nonpos (a b : Nat) (h0 : 0 < a) (h : a ≤ b) : flog2 a b ≤ 0 := by
  unfold flog2
  split
  · omega
  · have hab : a = b := by omega
    subst hab
    rw [lg2up_eq_zero _ _ _ (by omega)]
    simp

theorem flog2_self (t : Nat) (ht : 0 < t) : flog2 t t = 0 := by
  unfold flog2
  rw [if_neg (by omega), lg2up_eq_zero _ _ _ (by omega)]
  simp

/-- The modelled CPython score `int((s / t) * 100)` never exceeds 100 when at
most all required ingredients are satisfied: both roundings keep the value
within a factor `1 + 2⁻⁴⁶` of the exact quotient, which is at most 1. -/
theorem pyMatchPct_le_100 (s t : Nat) (hst : s ≤ t) (ht : 0 < t) :
    pyMatchPct s t ≤ 100 := by
  by_cases hs : s = 0
  · simp [pyMatchPct, hs]
  · have hs0 : 0 < s := Nat.pos_of_ne_zero hs
    unfold pyMatchPct
    rw [if_neg hs]
    simp only [flPair_fst, flPair_snd]
    set e1 : Int := flog2 s t with he1def
    have he1 : e1 ≤ 0 := he1def ▸ flog2_nonpos s t hs0 hst
    rw [if_pos (show e1 ≤ 52 by omega)]
    set k1 : Nat := ((52 : Int) - e1).toNat with hk1def
    have hk1 : 52 ≤ k1 := by omega
    set m1 : Nat := rneDiv (s * 2 ^ k1) t with hm1def
    have hm1 : m1 ≤ 2 ^ k1 + 1 := by
      have h1 : s * 2 ^ k1 ≤ t * 2 ^ k1 := Nat.mul_le_mul_right _ hst
      have h2 : s * 2 ^ k1 / t ≤ t * 2 ^ k1 / t := Nat.div_le_div_right h1
      rw [Nat.mul_div_cancel_left _ ht] at h2
      have h3 := rneDiv_le (s * 2 ^ k1) t
      omega
    set a2 : Nat := m1 * 100 with ha2def
    have h100 : (100 : Nat) ≤ 2 ^ k1 :=
      le_trans (by norm_num) (Nat.pow_le_pow_right (by norm_num) hk1)
    have ha2 : a2 ≤ 101 * 2 ^ k1 := by omega
    set e2 : Int := flog2 a2 (2 ^ k1) with he2def
    have he2 : e2 ≤ 6 := by
      rw [he2def]
      unfold flog2
      split
      · omega
      · rename_i hnl
        have hble : 2 ^ k1 ≤ a2 := by omega
        have hp := lg2up_pow_le 1100 a2 (2 ^ k1) (Nat.two_pow_pos k1) hble
        set L : Nat := lg2up 1100 a2 (2 ^ k1) with hLdef
        have h2L : 2 ^ L ≤ 101 :=
          Nat.le_of_mul_le_mul_right (le_trans hp ha2) (Nat.two_pow_pos k1)
        have hL6 : L ≤ 6 := by
          by_contra hL7
          have h128 : 2 ^ 7 ≤ 2 ^ L := Nat.pow_le_pow_right (by norm_num) (by omega)
          norm_num at h128
          omega
        omega
    rw [if_pos (show e2 ≤ 52 by omega), if_pos (show e2 ≤ 52 by omega)]
    set k2 : Nat := ((52 : Int) - e2).toNat with hk2def
    have hk2 : 46 ≤ k2 := by omega
    set m2 : Nat := rneDiv (a2 * 2 ^ k2) (2 ^ k1) with hm2def
    have hd1 : a2 * 2 ^ k2 ≤ (100 * 2 ^ k1 + 100) * 2 ^ k2 :=
      Nat.mul_le_mul_right _ (by omega)
    have h4 : (100 * 2 ^ k1 + 100) * 2 ^ k2 = 2 ^ k1 * (100 * 2 ^ k2) + 100 * 2 ^ k2 := by
      ring
    have h5 : (100 * 2 ^ k1 + 100) * 2 ^ k2 / 2 ^ k1 =
        100 * 2 ^ k2 + 100 * 2 ^ k2 / 2 ^ k1 := by
      rw [h4, Nat.mul_add_div (Nat.two_pow_pos k1)]
    have h6 : 100 * 2 ^ k2 / 2 ^ k1 ≤ 100 * 2 ^ k2 / 2 ^ 52 :=
      Nat.div_le_div_left (Nat.pow_le_pow_right (by norm_num) hk1) (Nat.two_pow_pos 52)
    have h7 : 100 * 2 ^ k2 ≤ 2 ^ (k2 + 7) := by
      have e : 2 ^ (k2 + 7) = 2 ^ k2 * 128 := by rw [pow_add]; norm_num
      have h128 : 100 * 2 ^ k2 ≤ 128 * 2 ^ k2 := Nat.mul_le_mul_right _ (by norm_num)
      omega
    have h8 : 2 ^ (k2 + 7) / 2 ^ 52 = 2 ^ (k2 - 45) := by
      have hexp : k2 + 7 - 52 = k2 - 45 := by omega
      rw [Nat.pow_div (by omega) (by norm_num), hexp]
    have h9 : 100 * 2 ^ k2 / 2 ^ 52 ≤ 2 ^ (k2 - 45) := by
      rw [← h8]
      exact Nat.div_le_div_right h7
    have hm2 : m2 ≤ 100 * 2 ^ k2 + 2 ^ (k2 - 45) + 1 := by
      have hr := rneDiv_le (a2 * 2 ^ k2) (2 ^ k1)
      have hdd : a2 * 2 ^ k2 / 2 ^ k1 ≤ (100 * 2 ^ k1 + 100) * 2 ^ k2 / 2 ^ k1 :=
        Nat.div_le_div_right hd1
      omega
    have hpowle : 2 ^ (k2 - 45) ≤ 2 ^ (k2 - 1) :=
      Nat.pow_le_pow_right (by norm_num) (by omega)
    have hpek : 2 ^ k2 = 2 * 2 ^ (k2 - 1) := by
      rw [← pow_succ']
      congr 1
      omega
    have h2b : (2 : Nat) ≤ 2 ^ (k2 - 1) := by
      calc (2 : Nat) = 2 ^ 1 := rfl
        _ ≤ 2 ^ (k2 - 1) := Nat.pow_le_pow_right (by norm_num) (by omega)
    have hfin : m2 < 101 * 2 ^ k2 := by omega
    have hdiv := (Nat.div_lt_iff_lt_mul (Nat.two_pow_pos k2)).2 hfin
    omega

/-- When every required ingredient is satisfied the modelled CPython score is
exactly 100: `t / t` rounds to exactly 1 and `1.0 * 100` is exact. -/
theorem pyMatchPct_self (t : Nat) (ht : 0 < t) : pyMatchPct t t = 100 := by
  have hs : t ≠ 0 := by omega
  have key : rneDiv (t * 2 ^ 52) t = 2 ^ 52 := by
    unfold rneDiv
    rw [Nat.mul_mod_right, Nat.mul_div_cancel_left _ ht]
    simp [ht]
  have hfp1 : (flPair t t).1 = 2 ^ 52 := by
    rw [flPair_fst, flog2_self t ht]
    norm_num
    exact key
  have hfp2 : (flPair t t).2 = 0 := by rw [flPair_snd, flog2_self t ht]
  have hfp : flPair t t = (2 ^ 52, 0) := by
    rw [← hfp1, ← hfp2]
  simp only [pyMatchPct, hs, if_false]
  rw [hfp]
  decide

@[simp] theorem score_recipe_id (u : List String) (r : Recipe) :
    (score_recipe u r).id = r.id := rfl

@[simp] theorem score_recipe_have (u : List String) (r : Recipe) :
    (score_recipe u r).ingredients_have =
      (recipe_ingredient_names r).filter (has_ingredient u) := rfl

@[simp] theorem score_recipe_need (u : List String) (r : Recipe) :
    (score_recipe u r).ingredients_need =
      (recipe_ingredient_names r).filter (fun n => ! has_ingredient u n) := rfl

@[simp] theorem score_recipe_pct (u : List String) (r : Recipe) :
    (score_recipe u r).match_percentage =
      if 0 < (recipe_ingredient_names r).length then
        pyMatchPct ((recipe_ingredient_names r).filter (has_ingredient u)).length
          (recipe_ingredient_names r).length
      else 0 := rfl

/-- An empty (hence empty-after-normalization) ingredient list is rejected
with HTTP 400 whatever the candidate catalog is. -/
theorem suggest_recipes_nil (recipes : List Recipe) :
    suggest_recipes [] recipes = .error 400 := rfl

/-- With a non-empty ingredient list the endpoint always answers `ok` with
the ranked, capped suggestions and the summary message. -/
theorem suggest_recipes_ok (ingredients : List String) (recipes : List Recipe)
    (h : ingredients ≠ []) :
    suggest_recipes ingredients recipes =
      .ok ⟨rank_suggestions (ingredients.map normalize_ingredient) recipes,
        "Found " ++
            toString (rank_suggestions (ingredients.map normalize_ingredient) recipes).length ++
            " recipes matching your " ++
            toString (ingredients.map normalize_ingredient).length ++ " ingredients!",
        recipes.length⟩ := by
  cases ingredients with
  | nil => exact absurd rfl h
  | cons a l => rfl

/-- Every suggestion in a successful response is the scored form of one of
the candidates, and passed the endpoint's filter condition. -/
theorem mem_of_suggest_ok {ingredients : List String} {recipes : List Recipe}
    {resp : RecipeSuggestionsResponse} {s : RecipeSuggestion}
    (hok : suggest_recipes ingredients recipes = .ok resp)
    (hs : s ∈ resp.suggestions) :
    ∃ r ∈ recipes, s = score_recipe (ingredients.map normalize_ingredient) r ∧
      (0 < s.match_percentage ∨ (ingredients.map normalize_ingredient).length = 0) := by
  cases ingredients with
  | nil => rw [suggest_recipes_nil] at hok; cases hok
  | cons a l =>
      rw [suggest_recipes_ok (a :: l) recipes (by simp)] at hok
      injection hok with hok
      subst hok
      simp only [rank_suggestions] at hs
      have hs1 := List.mem_of_mem_take hs
      have hs2 := (List.perm_insertionSort pct_ge _).mem_iff.1 hs1
      simp only [filtered_suggestions] at hs2
      obtain ⟨hmem, hcond⟩ := List.mem_filter.1 hs2
      obtain ⟨r, hr, hrs⟩ := List.mem_map.1 hmem
      refine ⟨r, hr, hrs.symm, ?_⟩
      simpa using hcond

/-- A successful response's suggestion list is the ranked list. -/
theorem suggestions_of_suggest_ok {ingredients : List String} {recipes : List Recipe}
    {resp : RecipeSuggestionsResponse}
    (hok : suggest_recipes ingredients recipes = .ok resp) :
    resp.suggestions = rank_suggestions (ingredients.map normalize_ingredient) recipes := by
  cases ingredients with
  | nil => rw [suggest_recipes_nil] at hok; cases hok
  | cons a l =>
      rw [suggest_recipes_ok (a :: l) recipes (by simp)] at hok
      injection hok with hok
      subst hok
      rfl

/-!  The analysed properties. -/

/-- C1: a required ingredient name `n` of a candidate (already normalized)
is placed in `ingredients_have` iff some normalized user ingredient `u` is a
substring of `n` or `n` is a substring of `u`; otherwise it is placed in
`ingredients_need`. -/
theorem C1_symmetric_containment (user_ingredients : List String) (r : Recipe)
    (n : String) (hn : n ∈ recipe_ingredient_names r) :
    (n ∈ (score_recipe user_ingredients r).ingredients_have ↔
      ∃ u ∈ user_ingredients, SubstringOf u n ∨ SubstringOf n u) ∧
    (n ∈ (score_recipe user_ingredients r).ingredients_need ↔
      ¬ ∃ u ∈ user_ingredients, SubstringOf u n ∨ SubstringOf n u) := by
  constructor
  · rw [score_recipe_have, List.mem_filter]
    simp [hn, has_ingredient_iff]
  · rw [score_recipe_need, List.mem_filter]
    simp [hn, ← has_ingredient_iff]

/-- C1 witness: user `"egg"` against the candidate requiring `"Eggs"` and
`"Milk"`, at the normalized required name `"eggs"`. -/
theorem C1_symmetric_containment_witness :
    ("eggs" ∈ (score_recipe ["egg"] ⟨1, "Breakfast", ["Eggs", "Milk"]⟩).ingredients_have ↔
      ∃ u ∈ ["egg"], SubstringOf u "eggs" ∨ SubstringOf "eggs" u) ∧
    ("eggs" ∈ (score_recipe ["egg"] ⟨1, "Breakfast", ["Eggs", "Milk"]⟩).ingredients_need ↔
      ¬ ∃ u ∈ ["egg"], SubstringOf u "eggs" ∨ SubstringOf "eggs" u) :=
  C1_symmetric_containment ["egg"] ⟨1, "Breakfast", ["Eggs", "Milk"]⟩ "eggs" (by decide)

/-- C5: for every candidate, the `have` and `need` lists split the (lower
cased) required-ingredient sequence: their lengths add up to the number of
required ingredients, each is a subsequence of the normalized
required-ingredient sequence, and no name is assigned to both. -/
theorem C5_partition (user_ingredients : List String) (r : Recipe) :
    (score_recipe user_ingredients r).ingredients_have.length +
        (score_recipe user_ingredients r).ingredients_need.length =
      r.ingredients.length ∧
    List.Sublist (score_recipe user_ingredients r).ingredients_have
      (recipe_ingredient_names r) ∧
    List.Sublist (score_recipe user_ingredients r).ingredients_need
      (recipe_ingredient_names r) ∧
    (score_recipe user_ingredients r).ingredients_have.Disjoint
      (score_recipe user_ingredients r).ingredients_need := by
  refine ⟨?_, ?_, ?_, ?_⟩
  · rw [score_recipe_have, score_recipe_need]
    have h := List.length_eq_length_filter_add (l := recipe_ingredient_names r)
      (has_ingredient user_ingredients)
    have hlen : (recipe_ingredient_names r).length = r.ingredients.length :=
      List.length_map _ _
    omega
  · rw [score_recipe_have]
    exact List.filter_sublist _
  · rw [score_recipe_need]
    exact List.filter_sublist _
  · rw [score_recipe_have, score_recipe_need]
    intro a ha hna
    have h1 := (List.mem_filter.1 ha).2
    have h2 := (List.mem_filter.1 hna).2
    simp at h2
    rw [h1] at h2
    cases h2

/-- C5 witness: the Breakfast candidate against user `"egg"`. -/
theorem C5_partition_witness :
    (score_recipe ["egg"] ⟨1, "Breakfast", ["Eggs", "Milk"]⟩).ingredients_have.length +
        (score_recipe ["egg"] ⟨1, "Breakfast", ["Eggs", "Milk"]⟩).ingredients_need.length =
      (["Eggs", "Milk"] : List String).length :=
  (C5_partition ["egg"] ⟨1, "Breakfast", ["Eggs", "Milk"]⟩).1

/-- C8: Scenario A of the specification, evaluated end to end: with user
ingredients `["chicken", "garlic"]` the ten-ingredient Thai Green Curry
candidate has exactly `"chicken breast"` satisfied (substring match with
`"chicken"`), the other nine needed, and scores 10. -/
theorem C8_scenario_A :
    suggest_recipes ["chicken", "garlic"]
        [⟨1, "Thai Green Curry",
          ["coconut milk", "green curry paste", "chicken breast", "bamboo shoots",
           "thai basil", "fish sauce", "palm sugar", "lime leaves",
           "vegetable oil", "jasmine rice"]⟩] =
      .ok ⟨[⟨1, "Thai Green Curry", ["chicken breast"],
            ["coconut milk", "green curry paste", "bamboo shoots", "thai basil",
             "fish sauce", "palm sugar", "lime leaves", "vegetable oil", "jasmine rice"],
            10⟩],
        "Found 1 recipes matching your 2 ingredients!", 1⟩ := by
  decide

/-- C3: with a non-empty ingredient list, every suggestion in the returned
sequence has a score in `(0, 100]`; in particular a candidate with zero
required ingredients (score 0) never appears. -/
theorem C3_output_scores (ingredients : List String) (recipes : List Recipe)
    (resp : RecipeSuggestionsResponse) (s : RecipeSuggestion)
    (hne : ingredients ≠ [])
    (hok : suggest_recipes ingredients recipes = .ok resp)
    (hs : s ∈ resp.suggestions) :
    0 < s.match_percentage ∧ s.match_percentage ≤ 100 := by
  obtain ⟨r, hr, hsr, hcond⟩ := mem_of_suggest_ok hok hs
  have hlen : (ingredients.map normalize_ingredient).length ≠ 0 := by
    cases ingredients with
    | nil => exact absurd rfl hne
    | cons a l => simp
  have hpos : 0 < s.match_percentage := by
    rcases hcond with h | h
    · exact h
    · exact absurd h hlen
  refine ⟨hpos, ?_⟩
  rw [hsr, score_recipe_pct]
  by_cases hl : 0 < (recipe_ingredient_names r).length
  · rw [if_pos hl]
    exact pyMatchPct_le_100 _ _ (List.length_filter_le _ _) hl
  · rw [if_neg hl]
    omega

/-- C3 witness: the single suggestion returned for user `["salt"]` against a
candidate requiring exactly `["salt"]` scores 100. -/
theorem C3_output_scores_witness :
    0 < (⟨1, "Salted", ["salt"], [], 100⟩ : RecipeSuggestion).match_percentage ∧
      (⟨1, "Salted", ["salt"], [], 100⟩ : RecipeSuggestion).match_percentage ≤ 100 :=
  C3_output_scores ["salt"] [⟨1, "Salted", ["salt"]⟩]
    ⟨[⟨1, "Salted", ["salt"], [], 100⟩], "Found 1 recipes matching your 1 ingredients!", 1⟩
    ⟨1, "Salted", ["salt"], [], 100⟩ (by decide) (by decide) (by decide)

/-- C4: every successful response holds at most 10 suggestions, sorted by
score in non-increasing order. -/
theorem C4_capped_and_sorted (ingredients : List String) (recipes : List Recipe)
    (resp : RecipeSuggestionsResponse)
    (hok : suggest_recipes ingredients recipes = .ok resp) :
    resp.suggestions.length ≤ 10 ∧
    List.Pairwise (fun a b => b.match_percentage ≤ a.match_percentage)
      resp.suggestions := by
  rw [suggestions_of_suggest_ok hok]
  constructor
  · simp only [rank_suggestions]
    rw [List.length_take]
    exact Nat.min_le_left _ _
  · simp only [rank_suggestions]
    exact List.Pairwise.sublist (List.take_sublist _ _)
      (List.sorted_insertionSort pct_ge _)

/-- C4 witness: the response for user `["salt"]` against one candidate. -/
theorem C4_capped_and_sorted_witness :
    ([⟨1, "Salted", ["salt"], [], 100⟩] : List RecipeSuggestion).length ≤ 10 ∧
    List.Pairwise (fun a b => b.match_percentage ≤ a.match_percentage)
      ([⟨1, "Salted", ["salt"], [], 100⟩] : List RecipeSuggestion) :=
  C4_capped_and_sorted ["salt"] [⟨1, "Salted", ["salt"]⟩]
    ⟨[⟨1, "Salted", ["salt"], [], 100⟩], "Found 1 recipes matching your 1 ingredients!", 1⟩
    (by decide)

/-- C6 counterexample: the claim asserts HTTP 400 also for a request whose
ingredient list is missing, but the required schema field with no default
makes the validation boundary reject such a request with HTTP 422 before
the handler's 400 branch can run. -/
theorem C6_counterexample :
    api_suggest_recipes none [] = .error 422 ∧ (422 : Nat) ≠ 400 := by
  decide

/-- C6 amended: a request missing the ingredient list is rejected by schema
validation with the client-error signal 422 and never reaches the handler;
a request with an empty ingredient list is rejected by the handler with the
client-error signal 400, in both cases without the ranking ever looking at
the candidates; and a well-formed call in which every candidate scores 0
returns a successful, empty suggestion list. -/
theorem C6_validation_and_empty_result :
    (∀ recipes : List Recipe, api_suggest_recipes none recipes = .error 422) ∧
    (∀ recipes : List Recipe, api_suggest_recipes (some []) recipes = .error 400) ∧
    (∀ (ingredients : List String) (recipes : List Recipe),
      ingredients ≠ [] →
      (∀ r ∈ recipes,
        (score_recipe (ingredients.map normalize_ingredient) r).match_percentage = 0) →
      (api_suggest_recipes (some ingredients) recipes).map
          RecipeSuggestionsResponse.suggestions = .ok []) := by
  refine ⟨fun recipes => rfl, fun recipes => suggest_recipes_nil recipes, ?_⟩
  intro ingredients recipes hne hz
  show (suggest_recipes ingredients recipes).map RecipeSuggestionsResponse.suggestions =
    .ok []
  rw [suggest_recipes_ok ingredients recipes hne]
  simp only [Except.map]
  have hlen : (ingredients.map normalize_ingredient).length ≠ 0 := by
    cases ingredients with
    | nil => exact absurd rfl hne
    | cons a l => simp
  have hfilt : filtered_suggestions (ingredients.map normalize_ingredient) recipes = [] := by
    simp only [filtered_suggestions]
    rw [List.filter_eq_nil_iff]
    intro s hs
    obtain ⟨r, hr, hrs⟩ := List.mem_map.1 hs
    subst hrs
    rw [hz r hr]
    simp [hlen, hne]
  simp [rank_suggestions, hfilt]

/-- C6 witness: a missing ingredient list is rejected with 422, an empty
one with 400, and a user ingredient matching nothing yields a successful
empty suggestion list. -/
theorem C6_validation_and_empty_result_witness :
    api_suggest_recipes none [⟨1, "Beef Stew", ["beef"]⟩] = .error 422 ∧
    api_suggest_recipes (some []) [⟨1, "Beef Stew", ["beef"]⟩] = .error 400 ∧
    (api_suggest_recipes (some ["zzzz"]) [⟨1, "Beef Stew", ["beef"]⟩]).map
        RecipeSuggestionsResponse.suggestions = .ok [] :=
  ⟨C6_validation_and_empty_result.1 [⟨1, "Beef Stew", ["beef"]⟩],
   C6_validation_and_empty_result.2.1 [⟨1, "Beef Stew", ["beef"]⟩],
   C6_validation_and_empty_result.2.2 ["zzzz"] [⟨1, "Beef Stew", ["beef"]⟩]
     (by decide) (by decide)⟩

/-- C9: appending a duplicate of an ingredient already in the list leaves
the returned suggestion sequence unchanged (the summary message may change,
as it counts the user's ingredients). -/
theorem C9_duplicate_no_effect (ingredients : List String) (x : String)
    (recipes : List Recipe) (hx : x ∈ ingredients) :
    (suggest_recipes (ingredients ++ [x]) recipes).map
        RecipeSuggestionsResponse.suggestions =
      (suggest_recipes ingredients recipes).map
        RecipeSuggestionsResponse.suggestions := by
  have hne : ingredients ≠ [] := by
    intro h
    subst h
    simp at hx
  have hne2 : ingredients ++ [x] ≠ [] := by simp
  have hkey : ∀ n, has_ingredient ((ingredients ++ [x]).map normalize_ingredient) n =
      has_ingredient (ingredients.map normalize_ingredient) n := by
    intro n
    simp only [has_ingredient, List.map_append, List.map_cons, List.map_nil,
      List.any_append, List.any_cons, List.any_nil, Bool.or_false]
    cases hpx : (py_str_in (normalize_ingredient x) n || py_str_in n (normalize_ingredient x)) with
    | false => simp [hpx]
    | true =>
        have hmem : (ingredients.map normalize_ingredient).any
            (fun u => py_str_in u n || py_str_in n u) = true :=
          List.any_eq_true.2 ⟨normalize_ingredient x, List.mem_map_of_mem _ hx, hpx⟩
        simp [hmem, hpx]
  have hscore : ∀ r : Recipe,
      score_recipe ((ingredients ++ [x]).map normalize_ingredient) r =
        score_recipe (ingredients.map normalize_ingredient) r := by
    intro r
    have hfun : has_ingredient ((ingredients ++ [x]).map normalize_ingredient) =
        has_ingredient (ingredients.map normalize_ingredient) := funext hkey
    simp only [score_recipe, hfun]
  have hcondlen : ((ingredients ++ [x]).map normalize_ingredient).length ≠ 0 := by simp
  have hcondlen2 : (ingredients.map normalize_ingredient).length ≠ 0 := by
    cases ingredients with
    | nil => exact absurd rfl hne
    | cons a l => simp
  have hfilt : filtered_suggestions ((ingredients ++ [x]).map normalize_ingredient) recipes =
      filtered_suggestions (ingredients.map normalize_ingredient) recipes := by
    simp only [filtered_suggestions]
    rw [List.map_congr_left (fun r _ => hscore r)]
    exact List.filter_congr (fun s _ => by simp [hcondlen, hcondlen2, hne])
  rw [suggest_recipes_ok _ _ hne, suggest_recipes_ok _ _ hne2]
  simp only [Except.map, rank_suggestions, hfilt]

/-- C9 witness: duplicating `"salt"` leaves the suggestions unchanged. -/
theorem C9_duplicate_no_effect_witness :
    (suggest_recipes (["salt"] ++ ["salt"]) [⟨1, "Salted", ["salt"]⟩]).map
        RecipeSuggestionsResponse.suggestions =
      (suggest_recipes ["salt"] [⟨1, "Salted", ["salt"]⟩]).map
        RecipeSuggestionsResponse.suggestions :=
  C9_duplicate_no_effect ["salt"] "salt" [⟨1, "Salted", ["salt"]⟩] (by decide)

/-- C7 counterexample: the claim says the `have`/`need` entries keep the
required-ingredient names' original casing for display, but the loop appends
the lower-cased name (`recipe_ing`, main.py:217/219): the candidate requiring
`"Chicken Breast"` is reported with `ingredients_have = ["chicken breast"]`,
which is not among the candidate's stored names. -/
theorem C7_counterexample :
    (suggest_recipes ["chicken"] [⟨1, "Grilled Chicken", ["Chicken Breast"]⟩]).map
        (fun r => r.suggestions.map RecipeSuggestion.ingredients_have) =
      .ok [[("chicken breast" : String)]] ∧
    (["Chicken Breast"] : List String).contains "chicken breast" = false := by
  decide

/-- C7 amended: the elements of `ingredients_have` and `ingredients_need`
are the candidate's required-ingredient names converted to lower case (the
normalized comparison form is also the displayed form; original casing is
not preserved). -/
theorem C7_lowercased_names (ingredients : List String) (recipes : List Recipe)
    (resp : RecipeSuggestionsResponse) (s : RecipeSuggestion)
    (hok : suggest_recipes ingredients recipes = .ok resp)
    (hs : s ∈ resp.suggestions) :
    ∃ r ∈ recipes, s.id = r.id ∧
      (∀ n ∈ s.ingredients_have, ∃ m ∈ r.ingredients, n = py_lower m) ∧
      (∀ n ∈ s.ingredients_need, ∃ m ∈ r.ingredients, n = py_lower m) := by
  obtain ⟨r, hr, hsr, -⟩ := mem_of_suggest_ok hok hs
  refine ⟨r, hr, by rw [hsr]; rfl, ?_, ?_⟩
  · intro n hn
    rw [hsr, score_recipe_have] at hn
    have hmem := (List.mem_filter.1 hn).1
    simp only [recipe_ingredient_names] at hmem
    obtain ⟨m, hm, hml⟩ := List.mem_map.1 hmem
    exact ⟨m, hm, hml.symm⟩
  · intro n hn
    rw [hsr, score_recipe_need] at hn
    have hmem := (List.mem_filter.1 hn).1
    simp only [recipe_ingredient_names] at hmem
    obtain ⟨m, hm, hml⟩ := List.mem_map.1 hmem
    exact ⟨m, hm, hml.symm⟩

/-- C7 witness: the Grilled Chicken response's entries are lower-cased
required names of the candidate. -/
theorem C7_lowercased_names_witness :
    ∃ r ∈ [(⟨1, "Grilled Chicken", ["Chicken Breast"]⟩ : Recipe)],
      (⟨1, "Grilled Chicken", ["chicken breast"], [], 100⟩ : RecipeSuggestion).id = r.id ∧
      (∀ n ∈ (⟨1, "Grilled Chicken", ["chicken breast"], [], 100⟩ :
          RecipeSuggestion).ingredients_have, ∃ m ∈ r.ingredients, n = py_lower m) ∧
      (∀ n ∈ (⟨1, "Grilled Chicken", ["chicken breast"], [], 100⟩ :
          RecipeSuggestion).ingredients_need, ∃ m ∈ r.ingredients, n = py_lower m) :=
  C7_lowercased_names ["chicken"] [⟨1, "Grilled Chicken", ["Chicken Breast"]⟩]
    ⟨[⟨1, "Grilled Chicken", ["chicken breast"], [], 100⟩],
      "Found 1 recipes matching your 1 ingredients!", 1⟩
    ⟨1, "Grilled Chicken", ["chicken breast"], [], 100⟩ (by decide) (by decide)

/-- A candidate with 50 required ingredients, 29 of which contain the user
ingredient `"a"` as a substring. -/
def fifty_ingredient_recipe : Recipe :=
  ⟨7, "Mega Stew",
   ["a1", "a2", "a3", "a4", "a5", "a6", "a7", "a8", "a9", "a10",
    "a11", "a12", "a13", "a14", "a15", "a16", "a17", "a18", "a19", "a20",
    "a21", "a22", "a23", "a24", "a25", "a26", "a27", "a28", "a29",
    "b1", "b2", "b3", "b4", "b5", "b6", "b7", "b8", "b9", "b10",
    "b11", "b12", "b13", "b14", "b15", "b16", "b17", "b18", "b19", "b20", "b21"]⟩

/-- C2 counterexample: with 29 of 50 required ingredients satisfied the code
computes `int((29 / 50) * 100)`.  In binary64, `29 / 50` rounds to slightly
below `0.58` and the product to slightly below `58.0`, so truncation yields
57, while exact integer arithmetic gives `floor(100 * 29 / 50) = 58`. -/
theorem C2_counterexample :
    (suggest_recipes ["a"] [fifty_ingredient_recipe]).map
        (fun r => r.suggestions.map fun s =>
          (s.match_percentage, s.ingredients_have.length, s.ingredients_need.length)) =
      .ok [(57, 29, 21)] ∧
    (100 * 29) / 50 = 58 := by
  decide

/-- C2 amended: the computed `match_percentage` is the truncated binary64
value of `(satisfied / total) * 100`.  It equals the exact
`floor(100 * satisfied / total)` for every candidate with at most 49
required ingredients (which covers every scenario in the specification),
and it is 0 for a candidate with zero required ingredients; for larger
candidates the two can differ (29 of 50 yields 57, not 58). -/
theorem C2_floor_scoring :
    (∀ (u : List String) (r : Recipe), 0 < r.ingredients.length →
      r.ingredients.length ≤ 49 →
      (score_recipe u r).match_percentage =
        100 * (score_recipe u r).ingredients_have.length / r.ingredients.length) ∧
    (∀ (u : List String) (r : Recipe), r.ingredients.length = 0 →
      (score_recipe u r).match_percentage = 0) := by
  have key : ∀ t < 50, ∀ s < 50, s ≤ t → 0 < t → pyMatchPct s t = 100 * s / t := by
    decide
  constructor
  · intro u r h1 h2
    have hlen : (recipe_ingredient_names r).length = r.ingredients.length :=
      List.length_map _ _
    have hfle : ((recipe_ingredient_names r).filter (has_ingredient u)).length ≤
        r.ingredients.length := le_trans (List.length_filter_le _ _) (le_of_eq hlen)
    rw [score_recipe_pct, score_recipe_have, if_pos (by omega), hlen]
    exact key r.ingredients.length (by omega) _ (by omega) hfle h1
  · intro u r h0
    have hlen : (recipe_ingredient_names r).length = r.ingredients.length :=
      List.length_map _ _
    rw [score_recipe_pct, if_neg (by omega)]

/-- C2 witness: two of the Breakfast candidate's two ingredients give
`floor(100 * 1 / 2) = 50`, and an ingredient-free candidate scores 0. -/
theorem C2_floor_scoring_witness :
    (score_recipe ["egg"] ⟨1, "Breakfast", ["Eggs", "Milk"]⟩).match_percentage =
      100 * (score_recipe ["egg"] ⟨1, "Breakfast", ["Eggs", "Milk"]⟩).ingredients_have.length /
        (⟨1, "Breakfast", ["Eggs", "Milk"]⟩ : Recipe).ingredients.length ∧
    (score_recipe ["egg"] ⟨2, "Glass of Water", []⟩).match_percentage = 0 :=
  ⟨C2_floor_scoring.1 ["egg"] ⟨1, "Breakfast", ["Eggs", "Milk"]⟩ (by decide) (by decide),
   C2_floor_scoring.2 ["egg"] ⟨2, "Glass of Water", []⟩ (by decide)⟩

/-- The empty string occurs in every string, as Python's `"" in s` does. -/
theorem py_str_in_empty (s : String) : py_str_in "" s = true := by
  show list_in [] s.data = true
  induction s.data with
  | nil => rfl
  | cons c t ih => simp [list_in]

/-- Eleven candidates with one required ingredient each. -/
def eleven_candidates : List Recipe :=
  [⟨0, "R0", ["x"]⟩, ⟨1, "R1", ["x"]⟩, ⟨2, "R2", ["x"]⟩, ⟨3, "R3", ["x"]⟩,
   ⟨4, "R4", ["x"]⟩, ⟨5, "R5", ["x"]⟩, ⟨6, "R6", ["x"]⟩, ⟨7, "R7", ["x"]⟩,
   ⟨8, "R8", ["x"]⟩, ⟨9, "R9", ["x"]⟩, ⟨10, "R10", ["x"]⟩]

/-- C10 counterexample: with the whitespace-only ingredient list `["  "]`
every one of the eleven one-ingredient candidates scores 100, but the claim
that each such candidate "is included in the output" fails: the output is
capped at 10 entries, so the eleventh candidate (id 10) does not appear. -/
theorem C10_counterexample :
    (suggest_recipes ["  "] eleven_candidates).map
        (fun resp => resp.suggestions.map RecipeSuggestion.id) =
      .ok [0, 1, 2, 3, 4, 5, 6, 7, 8, 9] ∧
    eleven_candidates.map Recipe.id = [0, 1, 2, 3, 4, 5, 6, 7, 8, 9, 10] ∧
    eleven_candidates.all (fun c => ! c.ingredients.isEmpty) = true := by
  decide

/-- C10 amended: a request whose every ingredient normalizes to the empty
string passes the emptiness validation, every required ingredient of every
candidate is judged satisfied (the empty string is a substring of every
name), and every candidate with at least one required ingredient scores 100
and enters the filtered suggestion list; the final output is the
first `min(10, n)` of those, so a candidate can still be cut by the cap. -/
theorem C10_whitespace_matches_all (ingredients : List String) (recipes : List Recipe)
    (r : Recipe) (hne : ingredients ≠ [])
    (hws : ∀ i ∈ ingredients, normalize_ingredient i = "")
    (hr : r ∈ recipes) (hri : r.ingredients ≠ []) :
    (score_recipe (ingredients.map normalize_ingredient) r).match_percentage = 100 ∧
    score_recipe (ingredients.map normalize_ingredient) r ∈
      filtered_suggestions (ingredients.map normalize_ingredient) recipes ∧
    ∃ resp, suggest_recipes ingredients recipes = .ok resp := by
  have hsat : ∀ n, has_ingredient (ingredients.map normalize_ingredient) n = true := by
    intro n
    cases ingredients with
    | nil => exact absurd rfl hne
    | cons a l =>
        apply List.any_eq_true.2
        refine ⟨normalize_ingredient a, by simp, ?_⟩
        rw [hws a (by simp)]
        simp [py_str_in_empty n]
  have hfself : (recipe_ingredient_names r).filter
      (has_ingredient (ingredients.map normalize_ingredient)) =
      recipe_ingredient_names r :=
    List.filter_eq_self.2 (fun a _ => by rw [hsat a])
  have hlen : (recipe_ingredient_names r).length = r.ingredients.length :=
    List.length_map _ _
  have hpos : 0 < (recipe_ingredient_names r).length := by
    cases hri2 : r.ingredients with
    | nil => exact absurd hri2 hri
    | cons a l => rw [hlen, hri2]; simp
  have hpct : (score_recipe (ingredients.map normalize_ingredient) r).match_percentage =
      100 := by
    rw [score_recipe_pct, if_pos hpos, hfself]
    exact pyMatchPct_self _ hpos
  refine ⟨hpct, ?_, ⟨_, suggest_recipes_ok _ _ hne⟩⟩
  simp only [filtered_suggestions]
  apply List.mem_filter.2
  refine ⟨List.mem_map_of_mem _ hr, ?_⟩
  rw [hpct]
  simp

/-- C10 witness: the whitespace-only request `["  "]` against a single
one-ingredient candidate scores it 100 and keeps it. -/
theorem C10_whitespace_matches_all_witness :
    (score_recipe (["  "].map normalize_ingredient) ⟨1, "R", ["x"]⟩).match_percentage = 100 ∧
    score_recipe (["  "].map normalize_ingredient) ⟨1, "R", ["x"]⟩ ∈
      filtered_suggestions (["  "].map normalize_ingredient) [⟨1, "R", ["x"]⟩] ∧
    ∃ resp, suggest_recipes ["  "] [⟨1, "R", ["x"]⟩] = .ok resp :=
  C10_whitespace_matches_all ["  "] [⟨1, "R", ["x"]⟩] ⟨1, "R", ["x"]⟩
    (by decide) (by decide) (by decide) (by decide)

end RecipeMatch
